import Mathlib

set_option maxHeartbeats 1000000
set_option maxRecDepth 10000

/-!
Verification of the publication protocol message envelope codec
(`src/publication/pubmsg.rs`).

The source file defines the `Message` tagged union, its `decode` and
`encode_vec` functions and the `MessageError` taxonomy.  The external
collaborators that are not part of the supplied source — the streaming XML
reader and writer, the byte-level XML parser and the four payload types —
are modelled from the spec (sections 4 and 6), which specifies them at
their interface boundary.  Everything else is a direct translation of the
source.
-/

/-- Modelled from the spec: an XML node of the wire format.  The spec (§6)
describes the wire format as a single root element carrying an ordered list
of attributes and child element trees; text content may appear inside
payload subtrees.  Attributes are an ordered list, never a mapping, as §9
demands. -/
inductive XmlNode where
  | elem (name : String) (attrs : List (String × String)) (children : List XmlNode)
  | text (s : String)

/-- Name of a root element (dummy for text nodes). -/
def XmlNode.rootName : XmlNode → String
  | .elem n _ _ => n
  | .text _ => ""

/-- Attribute list of a root element (dummy for text nodes). -/
def XmlNode.rootAttrs : XmlNode → List (String × String)
  | .elem _ a _ => a
  | .text _ => []

/-- Children of a root element (dummy for text nodes). -/
def XmlNode.kids : XmlNode → List XmlNode
  | .elem _ _ c => c
  | .text _ => []

/-- Number of child trees directly inside an element. -/
def XmlNode.kidCount (t : XmlNode) : Nat := t.kids.length

/-- Whether a node is an element. -/
def XmlNode.isElemB : XmlNode → Bool
  | .elem _ _ _ => true
  | .text _ => false

/-- Whether a node is a text node. -/
def XmlNode.isTextB : XmlNode → Bool
  | .elem _ _ _ => false
  | .text _ => true

/-- Whether a node is an element with the given tag name. -/
def XmlNode.isNamed (nm : String) : XmlNode → Bool
  | .elem n _ _ => n = nm
  | .text _ => false

/-- Characters allowed in tag and attribute names of the modelled XML
grammar. -/
def isNameChar (c : Char) : Bool :=
  c.isAlphanum || c = '_' || c = '-' || c = '.' || c = ':'

/-- A well-formed tag or attribute name: nonempty, name characters only. -/
def nameOk (s : String) : Bool :=
  !s.toList.isEmpty && s.toList.all isNameChar

/-- A well-formed attribute value: contains no double quote. -/
def valueOk (s : String) : Bool :=
  s.toList.all (· != '"')

/-- A well-formed text node content: nonempty and without markup. -/
def textOk (s : String) : Bool :=
  !s.toList.isEmpty && s.toList.all (· != '<')

/-- No two directly adjacent text children (adjacent text nodes would merge
on the wire). -/
def noAdjacentTexts : List XmlNode → Bool
  | t1 :: t2 :: rest => !(t1.isTextB && t2.isTextB) && noAdjacentTexts (t2 :: rest)
  | _ => true

/-- Whether a list of siblings does not start with a text node. -/
def headNotText : List XmlNode → Bool
  | [] => true
  | t :: _ => !t.isTextB

mutual

/-- Well-formedness of a node with respect to the modelled XML grammar:
exactly the trees whose serialization parses back unambiguously. -/
def wfNode : XmlNode → Bool
  | .text s => textOk s
  | .elem n attrs children =>
    nameOk n && attrs.all (fun kv => nameOk kv.1 && valueOk kv.2) &&
      wfKids children && noAdjacentTexts children

/-- Well-formedness of a list of sibling nodes. -/
def wfKids : List XmlNode → Bool
  | [] => true
  | t :: ts => wfNode t && wfKids ts

end

mutual

/-- Fuel bound sufficient for the parser to consume one serialized node. -/
def weightNode : XmlNode → Nat
  | .text _ => 1
  | .elem _ attrs children => 2 + attrs.length + weightKids children

/-- Fuel bound sufficient for the parser to consume serialized siblings. -/
def weightKids : List XmlNode → Nat
  | [] => 0
  | t :: ts => weightNode t + weightKids ts

end

/-- Modelled from the spec: the XML writer serializes an ordered attribute
list as it stands — fixed order, one space before each key, values in
double quotes (§6, §9). -/
def serializeAttrs : List (String × String) → List Char
  | [] => []
  | (k, v) :: rest =>
    ' ' :: (k.toList ++ '=' :: '"' :: (v.toList ++ '"' :: serializeAttrs rest))

mutual

/-- Modelled from the spec: the XML writer emits an element as a
self-closing tag when it has no children and as an open/close tag pair
around its serialized children otherwise; no extraneous whitespace and no
prolog (§4.1 encode contract, §6). -/
def serializeNode : XmlNode → List Char
  | .text s => s.toList
  | .elem n attrs children =>
    match children with
    | [] => '<' :: (n.toList ++ serializeAttrs attrs ++ ['/', '>'])
    | _ =>
      '<' :: (n.toList ++ serializeAttrs attrs ++
        '>' :: (serializeKids children ++ ('<' :: '/' :: (n.toList ++ ['>']))))

/-- Serialization of a list of sibling nodes. -/
def serializeKids : List XmlNode → List Char
  | [] => []
  | t :: ts => serializeNode t ++ serializeKids ts

end

/-- Serialize one XML document to its byte string. -/
def serializeDoc (t : XmlNode) : String := ⟨serializeNode t⟩

/-- Modelled from the spec: attribute parsing of the byte-level XML reader,
inverse of `serializeAttrs`. -/
def parseAttrs : Nat → List Char → Option (List (String × String) × List Char)
  | 0, _ => none
  | fuel + 1, cs =>
    match cs with
    | ' ' :: cs1 =>
      let k := cs1.takeWhile isNameChar
      if k.isEmpty then none else
      match cs1.dropWhile isNameChar with
      | '=' :: '"' :: cs2 =>
        let v := cs2.takeWhile (· != '"')
        match cs2.dropWhile (· != '"') with
        | '"' :: cs3 =>
          match parseAttrs fuel cs3 with
          | some (rest, cs4) => some ((⟨k⟩, ⟨v⟩) :: rest, cs4)
          | none => none
        | _ => none
      | _ => none
    | _ => some ([], cs)

mutual

/-- Modelled from the spec: element parsing of the byte-level XML reader
(the underlying streaming parser of §6), inverse of `serializeNode` on
well-formed trees. -/
def parseNode : Nat → List Char → Option (XmlNode × List Char)
  | 0, _ => none
  | fuel + 1, cs =>
    match cs with
    | '<' :: cs1 =>
      let nm := cs1.takeWhile isNameChar
      if nm.isEmpty then none else
      match parseAttrs fuel (cs1.dropWhile isNameChar) with
      | some (attrs, cs2) =>
        match cs2 with
        | '/' :: '>' :: cs3 => some (.elem ⟨nm⟩ attrs [], cs3)
        | '>' :: cs3 =>
          match parseChildren fuel cs3 with
          | some (children, cs4) =>
            match cs4 with
            | '<' :: '/' :: cs5 =>
              if cs5.takeWhile isNameChar = nm then
                match cs5.dropWhile isNameChar with
                | '>' :: cs6 => some (.elem ⟨nm⟩ attrs children, cs6)
                | _ => none
              else none
            | _ => none
          | none => none
        | _ => none
      | none => none
    | _ => none

/-- Modelled from the spec: parsing of sibling nodes up to the closing tag
of the enclosing element. -/
def parseChildren : Nat → List Char → Option (List XmlNode × List Char)
  | 0, _ => none
  | fuel + 1, cs =>
    match cs with
    | '<' :: '/' :: _ => some ([], cs)
    | '<' :: _ =>
      match parseNode fuel cs with
      | some (t, cs1) =>
        match parseChildren fuel cs1 with
        | some (ts, cs2) => some (t :: ts, cs2)
        | none => none
      | none => none
    | [] => none
    | _ :: _ =>
      let txt := cs.takeWhile (· != '<')
      match parseChildren fuel (cs.dropWhile (· != '<')) with
      | some (ts, cs1) => some (.text ⟨txt⟩ :: ts, cs1)
      | none => none

end

/-- Modelled from the spec: parse one whole XML document; the input must
consist of exactly one root element. -/
def parseDoc (s : String) : Option XmlNode :=
  match parseNode (s.toList.length + 1) s.toList with
  | some (t, []) => some t
  | _ => none

/-- Modelled from the spec: structural XML failures of the external
streaming reader (wrapped by the `XmlReadError` variant, spec §7
`MalformedXml`). -/
inductive XmlReaderErr where
  | ExpectedNamedStart (name : String)
  | UnexpectedContent
  | ParseError
deriving DecidableEq

/-- Modelled from the spec: attribute contract violations of the external
reader (§6, §7): a required attribute is missing, or attributes were not
fully consumed. -/
inductive AttributesError where
  | MissingAttribute (key : String)
  | UnexpectedAttribute (key : String)
deriving DecidableEq

/-- Modelled from the spec: opaque URI validation failure of the external
`uri` collaborator (§7 `MalformedUri`). -/
inductive UriError where
  | Malformed (s : String)
deriving DecidableEq

/-- The `MessageError` enum of the source (lines 147–170), one constructor
per `#[fail]` variant. -/
inductive MessageError where
  | InvalidVersion
  | UnknownMessageType
  | UnexpectedStart (name : String)
  | ExpectedStart (expected : String)
  | XmlReadError (e : XmlReaderErr)
  | XmlAttributesError (e : AttributesError)
  | UriError (e : UriError)
deriving DecidableEq

/-- The variant names of the source `MessageError` enum, in declaration
order (lines 147–170). -/
def MessageError.variantNames : List String :=
  ["InvalidVersion", "UnknownMessageType", "UnexpectedStart", "ExpectedStart",
   "XmlReadError", "XmlAttributesError", "UriError"]

/-- The constructor name carried by a `MessageError` value. -/
def MessageError.ctorName : MessageError → String
  | .InvalidVersion => "InvalidVersion"
  | .UnknownMessageType => "UnknownMessageType"
  | .UnexpectedStart _ => "UnexpectedStart"
  | .ExpectedStart _ => "ExpectedStart"
  | .XmlReadError _ => "XmlReadError"
  | .XmlAttributesError _ => "XmlAttributesError"
  | .UriError _ => "UriError"

/-- The error taxonomy the spec describes in §7, by variant name and in the
spec's order.  This follows the spec's words, for comparison with the
source enum. -/
def specSection7Variants : List String :=
  ["InvalidVersion", "UnknownMessageType", "UnexpectedStart", "ExpectedStart",
   "MissingAttribute", "UnexpectedAttribute", "MalformedXml", "MalformedUri",
   "PayloadError"]

/-- Outcome of running a fallible Rust function that may also panic: the
`unimplemented!()` macro in `decode_reply` aborts instead of returning a
`Result`, so the embedding keeps a distinct `panic` outcome apart from the
`Result` values. -/
inductive Outcome (α : Type) where
  | ok (value : α)
  | err (e : MessageError)
  | panic (msg : String)

/-- `VERSION` constant of the source (line 12). -/
def VERSION : String := "4"

/-- `NS` constant of the source (line 13). -/
def NS : String := "http://www.hactrn.net/uris/rpki/publication-spec/"

/-- Modelled from the spec: the reader strips namespace declarations before
handing the attribute list to the caller (§4.1 step 2 requires exactly
`version` and `type` beyond the namespace, and the tests decode documents
carrying `xmlns`). -/
def stripXmlns (attrs : List (String × String)) : List (String × String) :=
  attrs.filter (fun kv => kv.1 != "xmlns")

/-- Modelled from the spec: the reader's `take_required` attribute accessor
(§6), named `take_req` at the call sites of the source — removes the first
attribute with the given key and returns its value, or a missing-attribute
error naming the key. -/
def take_req (key : String) : List (String × String) →
    Except AttributesError (String × List (String × String))
  | [] => .error (.MissingAttribute key)
  | (k, v) :: rest =>
    if k = key then .ok (v, rest)
    else
      match take_req key rest with
      | .ok (v2, rest2) => .ok (v2, (k, v) :: rest2)
      | .error e => .error e

/-- Modelled from the spec: the reader's
`assert_no_remaining_attributes` check (§6), named `exhausted` at the call
site of the source — fails with an unexpected-attribute error naming a
leftover key. -/
def exhausted : List (String × String) → Except AttributesError Unit
  | [] => .ok ()
  | (k, _) :: _ => .error (.UnexpectedAttribute k)

/-- Modelled from the spec: the reader's `next_start_name` operation (§6) —
the name of the next start tag, if the stream is positioned at one. -/
def next_start_name : List XmlNode → Option String
  | .elem n _ _ :: _ => some n
  | _ => none

/-- Modelled from the spec: the list query payload type (§1, §6) — an
externally defined payload wrapping its single `list` element subtree. -/
structure ListQuery where
  element : XmlNode

/-- Modelled from the spec: the publish/withdraw query payload type (§1,
§4.1 step 5) — wraps one or more `publish`/`withdraw` element subtrees;
the multiplicity is the payload's responsibility. -/
structure PublishQuery where
  elements : List XmlNode

/-- Modelled from the spec: the success reply payload type, wrapping its
single `success` element subtree. -/
structure SuccessReply where
  element : XmlNode

/-- Modelled from the spec: the list reply payload type, wrapping its
single `list` element subtree. -/
structure ListReply where
  element : XmlNode

/-- Modelled from the spec: `ListQuery::decode` — consumes exactly one
`list` element subtree from the positioned reader (§6). -/
def ListQuery.decode : List XmlNode →
    Except MessageError (ListQuery × List XmlNode)
  | .elem "list" a c :: rest => .ok (⟨.elem "list" a c⟩, rest)
  | _ => .error (.XmlReadError (.ExpectedNamedStart "list"))

/-- Whether a node is a `publish` or `withdraw` element. -/
def isPublishOrWithdraw : XmlNode → Bool
  | .elem n _ _ => n = "publish" || n = "withdraw"
  | .text _ => false

/-- Modelled from the spec: `PublishQuery::decode` — consumes one or more
`publish`/`withdraw` element subtrees (§4.1 step 5). -/
def PublishQuery.decode (nodes : List XmlNode) :
    Except MessageError (PublishQuery × List XmlNode) :=
  let taken := nodes.takeWhile isPublishOrWithdraw
  if taken.isEmpty then
    .error (.XmlReadError (.ExpectedNamedStart "publish or withdraw"))
  else .ok (⟨taken⟩, nodes.dropWhile isPublishOrWithdraw)

/-- Modelled from the spec: `SuccessReply::decode` — consumes exactly one
`success` element subtree. -/
def SuccessReply.decode : List XmlNode →
    Except MessageError (SuccessReply × List XmlNode)
  | .elem "success" a c :: rest => .ok (⟨.elem "success" a c⟩, rest)
  | _ => .error (.XmlReadError (.ExpectedNamedStart "success"))

/-- Modelled from the spec: `ListReply::decode` — consumes exactly one
`list` element subtree. -/
def ListReply.decode : List XmlNode →
    Except MessageError (ListReply × List XmlNode)
  | .elem "list" a c :: rest => .ok (⟨.elem "list" a c⟩, rest)
  | _ => .error (.XmlReadError (.ExpectedNamedStart "list"))

/-- The `Message` enum of the source (lines 17–22): a closed tagged union
with exactly four variants, each wrapping one payload value. -/
inductive Message where
  | PublishQuery (q : PublishQuery)
  | ListQuery (l : ListQuery)
  | SuccessReply (s : SuccessReply)
  | ListReply (l : ListReply)

/-- `Message::decode_query` (source lines 27–53): dispatch on the next
start tag of a query body. -/
def Message.decode_query (nodes : List XmlNode) :
    Outcome (Message × List XmlNode) :=
  match next_start_name nodes with
  | some n =>
    match n with
    | "list" =>
      match ListQuery.decode nodes with
      | .ok (q, rest) => .ok (.ListQuery q, rest)
      | .error e => .err e
    | "publish" | "withdraw" =>
      match PublishQuery.decode nodes with
      | .ok (q, rest) => .ok (.PublishQuery q, rest)
      | .error e => .err e
    | _ => .err (.UnexpectedStart n)
  | none => .err (.ExpectedStart "list, publish, or withdraw")

/-- `Message::decode_reply` (source lines 55–81): dispatch on the next
start tag of a reply body; a `report_error` tag runs `unimplemented!()`,
which panics. -/
def Message.decode_reply (nodes : List XmlNode) :
    Outcome (Message × List XmlNode) :=
  match next_start_name nodes with
  | some n =>
    match n with
    | "success" =>
      match SuccessReply.decode nodes with
      | .ok (s, rest) => .ok (.SuccessReply s, rest)
      | .error e => .err e
    | "list" =>
      match ListReply.decode nodes with
      | .ok (l, rest) => .ok (.ListReply l, rest)
      | .error e => .err e
    | "report_error" => .panic "not implemented"
    | _ => .err (.UnexpectedStart n)
  | none => .err (.ExpectedStart "success, list, or report_error")

/-- Envelope attribute handling of `Message::decode` (source lines 90–95):
take `version` and check it against `VERSION`, then take `type`, then
require the attributes to be exhausted; returns the `type` value. -/
def Message.take_msg_attrs (attrs : List (String × String)) :
    Except MessageError String :=
  match take_req "version" (stripXmlns attrs) with
  | .error e => .error (.XmlAttributesError e)
  | .ok (v, a1) =>
    if v = VERSION then
      match take_req "type" a1 with
      | .error e => .error (.XmlAttributesError e)
      | .ok (msg_type, a2) =>
        match exhausted a2 with
        | .error e => .error (.XmlAttributesError e)
        | .ok _ => .ok msg_type
    else .error .InvalidVersion

/-- `Message::decode` on an already-parsed document (source lines 84–110):
`take_named_element "msg"`, envelope attribute validation, dispatch on the
`type` value; the enclosing element must be fully consumed by the payload
(§4.1 step 7). -/
def Message.decodeDoc (doc : XmlNode) : Outcome Message :=
  match doc with
  | .text _ => .err (.XmlReadError (.ExpectedNamedStart "msg"))
  | .elem name attrs children =>
    if name = "msg" then
      match Message.take_msg_attrs attrs with
      | .error e => .err e
      | .ok msg_type =>
        match msg_type with
        | "query" =>
          match Message.decode_query children with
          | .ok (m, rest) =>
            if rest.isEmpty then .ok m
            else .err (.XmlReadError .UnexpectedContent)
          | .err e => .err e
          | .panic s => .panic s
        | "reply" =>
          match Message.decode_reply children with
          | .ok (m, rest) =>
            if rest.isEmpty then .ok m
            else .err (.XmlReadError .UnexpectedContent)
          | .err e => .err e
          | .panic s => .panic s
        | _ => .err .UnknownMessageType
    else .err (.XmlReadError (.ExpectedNamedStart "msg"))

/-- `Message::decode` (source lines 84–110) from raw bytes: parse the
document with the external reader, then decode the envelope. -/
def Message.decode (s : String) : Outcome Message :=
  match parseDoc s with
  | some doc => Message.decodeDoc doc
  | none => .err (.XmlReadError .ParseError)

/-- The `msg_type` match of `Message::encode_vec` (source lines 116–121):
the message class string derived purely from the variant. -/
def Message.typeStr : Message → String
  | .PublishQuery _ => "query"
  | .ListQuery _ => "query"
  | .SuccessReply _ => "reply"
  | .ListReply _ => "reply"

/-- The payload encoder invocations of `Message::encode_vec` (source lines
132–137): the child trees the payload's own encoder writes inside `msg`. -/
def Message.payloadNodes : Message → List XmlNode
  | .PublishQuery q => q.elements
  | .ListQuery l => [l.element]
  | .SuccessReply s => [s.element]
  | .ListReply l => [l.element]

/-- `Message::encode_vec` (source lines 113–141) at the document level: a
single root `msg` element with the fixed attribute list
`xmlns`, `version`, `type` and the payload children. -/
def Message.encodeDoc (m : Message) : XmlNode :=
  .elem "msg"
    [("xmlns", NS), ("version", VERSION), ("type", Message.typeStr m)]
    (Message.payloadNodes m)

/-- `Message::encode_vec` (source lines 113–141): serialize the document
through the external writer. -/
def Message.encode_vec (m : Message) : String :=
  serializeDoc (Message.encodeDoc m)

/-- The payload invariant every successfully decoded `Message` satisfies:
the wrapped subtrees carry the tag names their decoders demand. -/
def Message.payloadOk : Message → Bool
  | .PublishQuery q => !q.elements.isEmpty && q.elements.all isPublishOrWithdraw
  | .ListQuery l => l.element.isNamed "list"
  | .SuccessReply s => s.element.isNamed "success"
  | .ListReply l => l.element.isNamed "list"

/-- Well-formedness of a message's payload subtrees: what it means for the
in-memory value to have been produced by (or be fit for) a conformant
payload codec. -/
def Message.wfPayloads (m : Message) : Bool :=
  wfKids (Message.payloadNodes m) && noAdjacentTexts (Message.payloadNodes m)

/-- Whether a message is the `ListQuery` variant. -/
def Message.isListQueryB : Message → Bool
  | .ListQuery _ => true
  | _ => false

/-- Whether a message is the `PublishQuery` variant. -/
def Message.isPublishQueryB : Message → Bool
  | .PublishQuery _ => true
  | _ => false

/-- Whether a message is the `SuccessReply` variant. -/
def Message.isSuccessReplyB : Message → Bool
  | .SuccessReply _ => true
  | _ => false

/-- Whether a message is the `ListReply` variant. -/
def Message.isListReplyB : Message → Bool
  | .ListReply _ => true
  | _ => false

/-- The message class of §3: `query` for PublishQuery/ListQuery, `reply`
for SuccessReply/ListReply, derived purely from the variant. -/
def Message.isQueryClass : Message → Bool
  | .PublishQuery _ => true
  | .ListQuery _ => true
  | .SuccessReply _ => false
  | .ListReply _ => false

/-! ### Helper lemmas: lists, strings, attributes -/

theorem mkToList (s : String) : (⟨s.toList⟩ : String) = s := rfl

theorem takeWhile_append_all {α : Type} (p : α → Bool) :
    ∀ (l1 l2 : List α), (∀ c ∈ l1, p c = true) →
    (∀ c, l2.head? = some c → p c = false) →
    (l1 ++ l2).takeWhile p = l1 ∧ (l1 ++ l2).dropWhile p = l2 := by
  intro l1
  induction l1 with
  | nil =>
    intro l2 h1 h2
    cases l2 with
    | nil => simp
    | cons c cs =>
      have hc : p c = false := h2 c rfl
      simp [List.takeWhile_cons, List.dropWhile_cons, hc]
  | cons a l1 ih =>
    intro l2 h1 h2
    have ha : p a = true := h1 a (by simp)
    have h := ih l2 (fun c hc => h1 c (by simp [hc])) h2
    simp [List.takeWhile_cons, List.dropWhile_cons, ha, h.1, h.2]

theorem takeWhile_all_eq {α : Type} (p : α → Bool) (l : List α)
    (h : ∀ c ∈ l, p c = true) :
    l.takeWhile p = l ∧ l.dropWhile p = [] := by
  have h2 : ∀ c, ([] : List α).head? = some c → p c = false := by
    intro c hc; simp at hc
  simpa using takeWhile_append_all p l [] h h2

theorem mem_takeWhile_pred {α : Type} (p : α → Bool) :
    ∀ (l : List α) (c : α), c ∈ l.takeWhile p → p c = true := by
  intro l
  induction l with
  | nil => simp [List.takeWhile]
  | cons a l ih =>
    intro c hc
    rw [List.takeWhile_cons] at hc
    by_cases ha : p a = true
    · simp [ha] at hc
      rcases hc with h | h
      · rw [h]; exact ha
      · exact ih c h
    · simp [ha] at hc

theorem dropWhile_head_false {α : Type} (p : α → Bool) :
    ∀ (l : List α) (c : α) (cs : List α), l.dropWhile p = c :: cs → p c = false := by
  intro l
  induction l with
  | nil => intro c cs h; simp [List.dropWhile] at h
  | cons a l ih =>
    intro c cs h
    rw [List.dropWhile_cons] at h
    by_cases ha : p a = true
    · simp [ha] at h; exact ih c cs h
    · simp [ha] at h
      rcases h with ⟨h1, _⟩
      rw [← h1]
      simpa using ha

theorem take_req_missing (key : String) :
    ∀ (l : List (String × String)), (∀ kv ∈ l, kv.1 ≠ key) →
    take_req key l = .error (.MissingAttribute key) := by
  intro l
  induction l with
  | nil => intro _; rfl
  | cons kv l ih =>
    intro h
    obtain ⟨k, v⟩ := kv
    have hk : k ≠ key := h (k, v) (by simp)
    have hrest := ih (fun kv hkv => h kv (by simp [hkv]))
    simp [take_req, hk, hrest]

theorem noAdjacentTexts_cons {t : XmlNode} {ts : List XmlNode}
    (h : noAdjacentTexts (t :: ts) = true) : noAdjacentTexts ts = true := by
  cases ts with
  | nil => rfl
  | cons t2 r =>
    simp [noAdjacentTexts] at h
    exact h.2

theorem serializeNode_elem_head (n : String) (a : List (String × String))
    (k : List XmlNode) : ∃ tl, serializeNode (.elem n a k) = '<' :: tl := by
  cases k <;> simp [serializeNode]

theorem nameOk_parts {s : String} (h : nameOk s = true) :
    s.toList ≠ [] ∧ ∀ c ∈ s.toList, isNameChar c = true := by
  simpa [nameOk] using h

theorem textOk_parts {s : String} (h : textOk s = true) :
    s.toList ≠ [] ∧ ∀ c ∈ s.toList, c ≠ '<' := by
  simpa [textOk] using h

theorem valueOk_parts {s : String} (h : valueOk s = true) :
    ∀ c ∈ s.toList, c ≠ '"' := by
  simpa [valueOk] using h

theorem wfNode_elem_parts {n : String} {attrs : List (String × String)}
    {children : List XmlNode} (h : wfNode (.elem n attrs children) = true) :
    nameOk n = true ∧ attrs.all (fun kv => nameOk kv.1 && valueOk kv.2) = true ∧
    wfKids children = true ∧ noAdjacentTexts children = true := by
  rw [wfNode] at h
  simp only [Bool.and_eq_true] at h
  exact ⟨h.1.1.1, h.1.1.2, h.1.2, h.2⟩


theorem toList_mk (l : List Char) : (⟨l⟩ : String).toList = l := rfl

theorem parseChildren_nil (fuel : Nat) : parseChildren fuel [] = none := by
  cases fuel <;> rfl

theorem isElemB_not_text {t : XmlNode} (h : t.isElemB = true) :
    t.isTextB = false := by
  cases t <;> simp_all [XmlNode.isElemB, XmlNode.isTextB]

theorem parseAttrs_sound :
    ∀ (fuel : Nat) (cs : List Char) (attrs : List (String × String))
      (rest : List Char),
    parseAttrs fuel cs = some (attrs, rest) →
    attrs.all (fun kv => nameOk kv.1 && valueOk kv.2) = true := by
  intro fuel
  induction fuel with
  | zero => intro cs attrs rest h; simp [parseAttrs] at h
  | succ fuel ih =>
    intro cs attrs rest h
    simp only [parseAttrs] at h
    split at h
    · split at h
      · simp at h
      · split at h
        · split at h
          · split at h
            · rename_i csX cs1 hne x2 cs2 heq2 x1 cs3 heq3 x0 rest1 cs4 heqA
              simp only [Option.some.injEq, Prod.mk.injEq] at h
              obtain ⟨h1, -⟩ := h
              subst h1
              simp only [List.all_cons, Bool.and_eq_true]
              refine ⟨⟨?_, ?_⟩, ih _ _ _ heqA⟩
              · simp only [nameOk, toList_mk, Bool.and_eq_true]
                constructor
                · simp only [Bool.not_eq_true] at hne
                  simp [hne]
                · simp only [List.all_eq_true]
                  exact fun c hc => mem_takeWhile_pred _ _ c hc
              · simp only [valueOk, toList_mk, List.all_eq_true]
                exact fun c hc => mem_takeWhile_pred _ _ c hc
            · simp at h
          · simp at h
        · simp at h
    · simp only [Option.some.injEq, Prod.mk.injEq] at h
      obtain ⟨h1, -⟩ := h
      subst h1
      rfl

theorem nameOk_takeWhile {cs : List Char}
    (h : ¬(cs.takeWhile isNameChar).isEmpty = true) :
    nameOk ⟨cs.takeWhile isNameChar⟩ = true := by
  simp only [nameOk, toList_mk, Bool.and_eq_true]
  constructor
  · simp only [Bool.not_eq_true] at h
    simp [h]
  · simp only [List.all_eq_true]
    exact fun c hc => mem_takeWhile_pred _ _ c hc

theorem parser_sound (fuel : Nat) :
    (∀ cs t rest, parseNode fuel cs = some (t, rest) →
       wfNode t = true ∧ t.isElemB = true) ∧
    (∀ cs ts rest, parseChildren fuel cs = some (ts, rest) →
       wfKids ts = true ∧ noAdjacentTexts ts = true ∧
       (∀ cs0, cs = '<' :: cs0 → headNotText ts = true)) := by
  induction fuel with
  | zero =>
    constructor
    · intro cs t rest h; simp [parseNode] at h
    · intro cs ts rest h; simp [parseChildren] at h
  | succ fuel ih =>
    obtain ⟨ihN, ihC⟩ := ih
    constructor
    · intro cs t rest h
      simp only [parseNode] at h
      split at h
      · split at h
        · simp at h
        · split at h
          · split at h
            · rename_i cs0 cs1 hne x0 attrs1 cs2 cs3 heqA
              simp only [Option.some.injEq, Prod.mk.injEq] at h
              obtain ⟨h1, -⟩ := h
              subst h1
              refine ⟨?_, rfl⟩
              rw [wfNode]
              simp only [Bool.and_eq_true]
              exact ⟨⟨⟨nameOk_takeWhile hne, parseAttrs_sound fuel _ _ _ heqA⟩,
                rfl⟩, rfl⟩
            · split at h
              · split at h
                · split at h
                  · split at h
                    · rename_i cs0 cs1 hne x2 attrs1 cs2 cs3 heqA x1 children1
                        cs4 cs5 heqC hcn x0 cs6 heqD
                      simp only [Option.some.injEq, Prod.mk.injEq] at h
                      obtain ⟨h1, -⟩ := h
                      subst h1
                      obtain ⟨hk, hna, -⟩ := ihC _ _ _ heqC
                      refine ⟨?_, rfl⟩
                      rw [wfNode]
                      simp only [Bool.and_eq_true]
                      exact ⟨⟨⟨nameOk_takeWhile hne,
                        parseAttrs_sound fuel _ _ _ heqA⟩, hk⟩, hna⟩
                    · simp at h
                  · simp at h
                · simp at h
              · simp at h
            · simp at h
          · simp at h
      · simp at h
    · intro cs ts rest h
      simp only [parseChildren] at h
      split at h
      · simp only [Option.some.injEq, Prod.mk.injEq] at h
        obtain ⟨h1, -⟩ := h
        subst h1
        exact ⟨rfl, rfl, fun cs0 _ => rfl⟩
      · split at h
        · split at h
          · rename_i cs0 tl0 hnotend x1 t1 cs1 heqN x0 children1 cs4 heqC
            simp only [Option.some.injEq, Prod.mk.injEq] at h
            obtain ⟨h1, -⟩ := h
            subst h1
            obtain ⟨hwf, hel⟩ := ihN _ _ _ heqN
            obtain ⟨hk, hna, -⟩ := ihC _ _ _ heqC
            refine ⟨?_, ?_, ?_⟩
            · rw [wfKids]; simp [hwf, hk]
            · cases children1 with
              | nil => rfl
              | cons t2 r =>
                rw [noAdjacentTexts]
                simp [isElemB_not_text hel, hna]
            · intro cs0 _
              simp [headNotText, isElemB_not_text hel]
          · simp at h
        · simp at h
      · simp at h
      · split at h
        · rename_i cs0 hd tl hnotclose hnotlt x0 children1 cs4 heqC
          simp only [Option.some.injEq, Prod.mk.injEq] at h
          obtain ⟨h1, -⟩ := h
          subst h1
          have hne : (hd != '<') = true := by
            simp only [bne_iff_ne, ne_eq]
            exact hnotlt
          obtain ⟨hk, hna, hhead⟩ := ihC _ _ _ heqC
          have hht : headNotText children1 = true := by
            cases hdw : List.dropWhile (fun x => x != '<') (hd :: tl) with
            | nil =>
              rw [hdw, parseChildren_nil] at heqC
              simp at heqC
            | cons d ds =>
              have hdp : (d != '<') = false :=
                dropWhile_head_false (fun x => x != '<') (hd :: tl) d ds hdw
              have hdeq : d = '<' := by simpa using hdp
              exact hhead ds (by rw [hdw, hdeq])
          refine ⟨?_, ?_, ?_⟩
          · rw [wfKids, wfNode]
            simp only [Bool.and_eq_true]
            refine ⟨?_, hk⟩
            simp only [textOk, toList_mk, Bool.and_eq_true]
            constructor
            · rw [List.takeWhile_cons]
              simp [hne]
            · simp only [List.all_eq_true]
              exact fun c hc => mem_takeWhile_pred _ _ c hc
          · cases children1 with
            | nil => rfl
            | cons t2 r =>
              simp only [headNotText] at hht
              rw [noAdjacentTexts]
              simp only [XmlNode.isTextB, Bool.true_and, Bool.and_eq_true]
              constructor
              · simpa using hht
              · exact hna
          · intro cs0 hcs
            injection hcs with h1 h2
            exact absurd h1 hnotlt
        · simp at h

theorem parseDoc_sound (s : String) (t : XmlNode) (h : parseDoc s = some t) :
    wfNode t = true ∧ t.isElemB = true := by
  simp only [parseDoc] at h
  split at h
  · rename_i x t1 heq
    simp only [Option.some.injEq] at h
    subst h
    exact (parser_sound _).1 _ _ _ heq
  · simp at h

/-! ### Parser completeness: serializations of well-formed trees parse back -/

theorem parseAttrs_ser :
    ∀ (attrs : List (String × String)) (fuel : Nat) (rest : List Char),
    attrs.all (fun kv => nameOk kv.1 && valueOk kv.2) = true →
    attrs.length + 1 ≤ fuel →
    (∀ c, rest.head? = some c → c ≠ ' ') →
    parseAttrs fuel (serializeAttrs attrs ++ rest) = some (attrs, rest) := by
  intro attrs
  induction attrs with
  | nil =>
    intro fuel rest hok hfuel hhead
    obtain ⟨f, rfl⟩ : ∃ f, fuel = f + 1 := ⟨fuel - 1, by omega⟩
    simp only [serializeAttrs, List.nil_append]
    cases rest with
    | nil => rfl
    | cons c cs =>
      have hc : c ≠ ' ' := hhead c rfl
      simp only [parseAttrs]
      split
      · rename_i cs1 hcs
        injection hcs with h1 h2
        exact absurd h1 hc
      · rfl
  | cons kv attrs ih =>
    intro fuel rest hok hfuel hhead
    obtain ⟨k, v⟩ := kv
    obtain ⟨f, rfl⟩ : ∃ f, fuel = f + 1 := ⟨fuel - 1, by omega⟩
    simp only [List.all_cons, Bool.and_eq_true] at hok
    obtain ⟨⟨hkOk, hvOk⟩, hrest⟩ := hok
    obtain ⟨hkne, hkall⟩ := nameOk_parts hkOk
    have hvall : ∀ c ∈ v.toList, (c != '"') = true := by
      intro c hc
      simp only [bne_iff_ne, ne_eq]
      exact valueOk_parts hvOk c hc
    have htk := takeWhile_append_all isNameChar k.toList
      ('=' :: '"' :: (v.toList ++ '"' :: (serializeAttrs attrs ++ rest)))
      hkall (by intro c hc; injection hc with h1; rw [← h1]; decide)
    have htv := takeWhile_append_all (· != '"') v.toList
      ('"' :: (serializeAttrs attrs ++ rest))
      hvall (by intro c hc; injection hc with h1; rw [← h1]; decide)
    have hih := ih f rest hrest (by simp at hfuel; omega) hhead
    obtain ⟨htk1, htk2⟩ := htk
    obtain ⟨htv1, htv2⟩ := htv
    have hkef : k.toList.isEmpty = false := by
      simp only [List.isEmpty_eq_false]
      exact hkne
    simp only [serializeAttrs, List.cons_append, List.append_assoc]
    simp only [parseAttrs, htk1, htk2, htv1, htv2, hkef, hih, mkToList,
      Bool.false_eq_true, if_false]

theorem isNameChar_ne (c : Char) (h : isNameChar c = true) :
    c ≠ '/' ∧ c ≠ ' ' ∧ c ≠ '>' ∧ c ≠ '=' ∧ c ≠ '<' ∧ c ≠ '"' := by
  refine ⟨?_, ?_, ?_, ?_, ?_, ?_⟩ <;>
    (intro hc; subst hc; revert h; decide)

theorem serializeNode_elem_shape (n1 : String) (a1 : List (String × String))
    (k1 : List XmlNode) (c0 : Char) (ntl : List Char)
    (hns : n1.toList = c0 :: ntl) :
    ∃ tl2, serializeNode (.elem n1 a1 k1) = '<' :: c0 :: tl2 := by
  have hd : n1.data = c0 :: ntl := hns
  cases k1 with
  | nil =>
    refine ⟨ntl ++ (serializeAttrs a1 ++ ['/', '>']), ?_⟩
    simp [serializeNode, hd]
  | cons hh tt =>
    refine ⟨ntl ++ (serializeAttrs a1 ++
      '>' :: (serializeKids (hh :: tt) ++ '<' :: '/' :: (n1.data ++ ['>']))), ?_⟩
    simp [serializeNode, hd]

theorem parseChildren_elem_step (f : Nat) (c2 : Char) (cs2 : List Char)
    (h2 : c2 ≠ '/') :
    parseChildren (f + 1) ('<' :: c2 :: cs2) =
      (match parseNode f ('<' :: c2 :: cs2) with
       | some (t, cs1) =>
         (match parseChildren f cs1 with
          | some (ts, cs3) => some (t :: ts, cs3)
          | none => none)
       | none => none) := by
  simp only [parseChildren]
  split
  · rename_i tl heq
    injection heq with ha hb
    injection hb with hb1 hb2
    exact absurd hb1 h2
  · rfl
  · rename_i heq
    simp at heq
  · rename_i hd tl hcond1 hcond2 heq
    injection heq with ha hb
    exact absurd ha.symm hcond2

theorem parseChildren_text_step (f : Nat) (c0 : Char) (cs0 : List Char)
    (h : c0 ≠ '<') :
    parseChildren (f + 1) (c0 :: cs0) =
      (match parseChildren f ((c0 :: cs0).dropWhile (· != '<')) with
       | some (ts, cs1) => some (.text ⟨(c0 :: cs0).takeWhile (· != '<')⟩ :: ts, cs1)
       | none => none) := by
  simp only [parseChildren]
  split
  · rename_i tl heq
    injection heq with ha hb
    exact absurd ha h
  · rename_i tl heq
    injection heq with ha hb
    exact absurd ha h
  · rename_i heq
    simp at heq
  · rfl

mutual

theorem parseNode_ser (n : String) (attrs : List (String × String))
    (kids : List XmlNode) (fuel : Nat) (rest : List Char)
    (hwf : wfNode (.elem n attrs kids) = true)
    (hfuel : weightNode (.elem n attrs kids) ≤ fuel) :
    parseNode fuel (serializeNode (.elem n attrs kids) ++ rest) =
      some (.elem n attrs kids, rest) := by
  obtain ⟨hno, hao, hwk, hna⟩ := wfNode_elem_parts hwf
  obtain ⟨hnne, hnall⟩ := nameOk_parts hno
  rw [weightNode] at hfuel
  obtain ⟨f, rfl⟩ : ∃ f, fuel = f + 1 := ⟨fuel - 1, by omega⟩
  have hnef : n.toList.isEmpty = false := by
    simp only [List.isEmpty_eq_false]; exact hnne
  cases kids with
  | nil =>
    have hhead2 : ∀ c, (serializeAttrs attrs ++ '/' :: '>' :: rest).head? = some c →
        isNameChar c = false := by
      cases attrs with
      | nil =>
        intro c hc
        simp only [serializeAttrs, List.nil_append, List.head?_cons,
          Option.some.injEq] at hc
        rw [← hc]; decide
      | cons a as =>
        obtain ⟨a1, a2⟩ := a
        intro c hc
        simp only [serializeAttrs, List.cons_append, List.head?_cons,
          Option.some.injEq] at hc
        rw [← hc]; decide
    obtain ⟨htk1, htk2⟩ := takeWhile_append_all isNameChar n.toList
      (serializeAttrs attrs ++ '/' :: '>' :: rest) hnall hhead2
    have hpa := parseAttrs_ser attrs f ('/' :: '>' :: rest) hao
      (by simp only [weightKids] at hfuel; omega)
      (by intro c hc; injection hc with h1; rw [← h1]; decide)
    simp only [serializeNode, List.cons_append, List.append_assoc, List.nil_append]
    simp only [parseNode, htk1, htk2, hnef, Bool.false_eq_true, if_false,
      reduceIte, hpa, mkToList]
  | cons k1 ks =>
    have hhead2 : ∀ c,
        (serializeAttrs attrs ++
          '>' :: (serializeKids (k1 :: ks) ++ '<' :: '/' :: (n.toList ++ '>' :: rest))).head? =
          some c → isNameChar c = false := by
      cases attrs with
      | nil =>
        intro c hc
        simp only [serializeAttrs, List.nil_append, List.head?_cons,
          Option.some.injEq] at hc
        rw [← hc]; decide
      | cons a as =>
        obtain ⟨a1, a2⟩ := a
        intro c hc
        simp only [serializeAttrs, List.cons_append, List.head?_cons,
          Option.some.injEq] at hc
        rw [← hc]; decide
    obtain ⟨htk1, htk2⟩ := takeWhile_append_all isNameChar n.toList
      (serializeAttrs attrs ++
        '>' :: (serializeKids (k1 :: ks) ++ '<' :: '/' :: (n.toList ++ '>' :: rest)))
      hnall hhead2
    have hpa := parseAttrs_ser attrs f
      ('>' :: (serializeKids (k1 :: ks) ++ '<' :: '/' :: (n.toList ++ '>' :: rest)))
      hao (by omega)
      (by intro c hc; injection hc with h1; rw [← h1]; decide)
    have hpc := parseChildren_ser (k1 :: ks) f (n.toList ++ '>' :: rest) hwk hna
      (by omega)
    obtain ⟨htk3, htk4⟩ := takeWhile_append_all isNameChar n.toList ('>' :: rest)
      hnall (by intro c hc; injection hc with h1; rw [← h1]; decide)
    simp only [serializeNode, List.cons_append, List.append_assoc, List.nil_append]
    simp only [parseNode, htk1, htk2, hnef, Bool.false_eq_true, if_false,
      reduceIte, hpa, hpc, htk3, htk4, eq_self_iff_true, ite_true, mkToList]
termination_by sizeOf (XmlNode.elem n attrs kids)

theorem parseChildren_ser (ts : List XmlNode) (fuel : Nat) (rest : List Char)
    (hwf : wfKids ts = true) (hna : noAdjacentTexts ts = true)
    (hfuel : weightKids ts + 1 ≤ fuel) :
    parseChildren fuel (serializeKids ts ++ '<' :: '/' :: rest) =
      some (ts, '<' :: '/' :: rest) := by
  obtain ⟨f, rfl⟩ : ∃ f, fuel = f + 1 := ⟨fuel - 1, by omega⟩
  cases ts with
  | nil =>
    simp only [serializeKids, List.nil_append]
    simp only [parseChildren]
  | cons t ts1 =>
    have hna1 : noAdjacentTexts ts1 = true := noAdjacentTexts_cons hna
    rw [wfKids] at hwf
    simp only [Bool.and_eq_true] at hwf
    obtain ⟨hwt, hwk1⟩ := hwf
    rw [weightKids] at hfuel
    cases t with
    | elem n1 a1 k1 =>
      obtain ⟨hno1, -, -, -⟩ := wfNode_elem_parts hwt
      obtain ⟨hnne1, hnall1⟩ := nameOk_parts hno1
      obtain ⟨c0, ntl, hns⟩ : ∃ c0 ntl, n1.toList = c0 :: ntl := by
        cases hh : n1.toList with
        | nil => exact absurd hh hnne1
        | cons c0 ntl => exact ⟨c0, ntl, rfl⟩
      have hc0 : isNameChar c0 = true := hnall1 c0 (by rw [hns]; simp)
      have hc0ne := isNameChar_ne c0 hc0
      obtain ⟨tl2, hshape⟩ := serializeNode_elem_shape n1 a1 k1 c0 ntl hns
      have hN := parseNode_ser n1 a1 k1 f
        (serializeKids ts1 ++ '<' :: '/' :: rest) hwt (by omega)
      have hC := parseChildren_ser ts1 f rest hwk1 hna1 (by
        have : 1 ≤ weightNode (.elem n1 a1 k1) := by rw [weightNode]; omega
        omega)
      simp only [serializeKids, List.append_assoc]
      rw [hshape, List.cons_append, List.cons_append]
      rw [parseChildren_elem_step f c0 _ hc0ne.1]
      rw [← List.cons_append, ← List.cons_append, ← hshape]
      rw [hN]
      simp only [hC]
    | text s =>
      have htOk : textOk s = true := by rw [wfNode] at hwt; exact hwt
      obtain ⟨hsne, hsall⟩ := textOk_parts htOk
      have hsallB : ∀ c ∈ s.toList, (c != '<') = true := by
        intro c hc; simp only [bne_iff_ne, ne_eq]; exact hsall c hc
      obtain ⟨c0, stl, hss⟩ : ∃ c0 stl, s.toList = c0 :: stl := by
        cases hh : s.toList with
        | nil => exact absurd hh hsne
        | cons c0 stl => exact ⟨c0, stl, rfl⟩
      have hc0 : c0 ≠ '<' := hsall c0 (by rw [hss]; simp)
      have hheadX : ∀ c, (serializeKids ts1 ++ '<' :: '/' :: rest).head? = some c →
          (c != '<') = false := by
        cases ts1 with
        | nil =>
          intro c hc
          simp only [serializeKids, List.nil_append, List.head?_cons,
            Option.some.injEq] at hc
          rw [← hc]; decide
        | cons t2 ts2 =>
          cases t2 with
          | text s2 =>
            simp [noAdjacentTexts, XmlNode.isTextB] at hna
          | elem n2 a2 k2 =>
            intro c hc
            obtain ⟨tlx, hsx⟩ := serializeNode_elem_head n2 a2 k2
            simp only [serializeKids, hsx, List.cons_append, List.append_assoc,
              List.head?_cons, Option.some.injEq] at hc
            rw [← hc]; decide
      obtain ⟨htw1, htw2⟩ := takeWhile_append_all (· != '<') s.toList
        (serializeKids ts1 ++ '<' :: '/' :: rest) hsallB hheadX
      have hC := parseChildren_ser ts1 f rest hwk1 hna1 (by
        simp only [weightNode] at hfuel; omega)
      simp only [serializeKids, serializeNode, List.append_assoc]
      rw [hss, List.cons_append]
      rw [parseChildren_text_step f c0 _ hc0]
      rw [← List.cons_append, ← hss]
      rw [htw2]
      simp only [hC, htw1, mkToList]
termination_by sizeOf ts

end

theorem serializeAttrs_len (attrs : List (String × String)) :
    attrs.length ≤ (serializeAttrs attrs).length := by
  induction attrs with
  | nil => simp [serializeAttrs]
  | cons kv rest ih =>
    obtain ⟨k, v⟩ := kv
    simp only [serializeAttrs, List.length_cons, List.length_append]
    omega

mutual

theorem weightNode_le (t : XmlNode) (h : wfNode t = true) :
    weightNode t ≤ (serializeNode t).length := by
  cases t with
  | text s =>
    have hp := textOk_parts (by rwa [wfNode] at h)
    have := List.length_pos.mpr hp.1
    simp only [weightNode, serializeNode]
    omega
  | elem n attrs kids =>
    obtain ⟨hno, -, hwk, -⟩ := wfNode_elem_parts h
    obtain ⟨hnne, -⟩ := nameOk_parts hno
    have hn1 : 1 ≤ n.toList.length := List.length_pos.mpr hnne
    have ha := serializeAttrs_len attrs
    cases kids with
    | nil =>
      simp only [weightNode, weightKids, serializeNode, List.length_cons,
        List.length_append, List.length_nil]
      omega
    | cons k1 ks =>
      have hk := weightKids_le (k1 :: ks) hwk
      simp only [weightNode, serializeNode, List.length_cons, List.length_append]
      omega
termination_by sizeOf t

theorem weightKids_le (ts : List XmlNode) (h : wfKids ts = true) :
    weightKids ts ≤ (serializeKids ts).length := by
  cases ts with
  | nil => simp [weightKids, serializeKids]
  | cons t ts1 =>
    rw [wfKids] at h
    simp only [Bool.and_eq_true] at h
    have h1 := weightNode_le t h.1
    have h2 := weightKids_le ts1 h.2
    simp only [weightKids, serializeKids, List.length_append]
    omega
termination_by sizeOf ts

end

theorem parseDoc_ser (t : XmlNode) (hwf : wfNode t = true)
    (he : t.isElemB = true) : parseDoc (serializeDoc t) = some t := by
  cases t with
  | text s => simp [XmlNode.isElemB] at he
  | elem n attrs kids =>
    have hw := weightNode_le (.elem n attrs kids) hwf
    have hp := parseNode_ser n attrs kids
      ((serializeNode (.elem n attrs kids)).length + 1) [] hwf (by omega)
    rw [List.append_nil] at hp
    simp only [parseDoc, serializeDoc, toList_mk]
    rw [hp]

/-! ### Envelope decode and encode lemmas -/

theorem decode_query_ok (nodes : List XmlNode) (m : Message) (rest : List XmlNode)
    (h : Message.decode_query nodes = .ok (m, rest)) :
    Message.payloadOk m = true ∧ nodes = Message.payloadNodes m ++ rest ∧
      Message.isQueryClass m = true := by
  simp only [Message.decode_query] at h
  split at h
  · split at h
    · split at h
      · rename_i n hn hcase p rest1 heq
        simp only [Outcome.ok.injEq, Prod.mk.injEq] at h
        obtain ⟨h1, h2⟩ := h
        subst h1
        subst h2
        simp only [ListQuery.decode] at heq
        split at heq
        · rename_i a c rest2
          simp only [Except.ok.injEq, Prod.mk.injEq] at heq
          obtain ⟨hq, hr⟩ := heq
          subst hq
          subst hr
          refine ⟨by simp [Message.payloadOk, XmlNode.isNamed], by
            simp [Message.payloadNodes], rfl⟩
        · exact Except.noConfusion heq
      · exact Outcome.noConfusion h
    · split at h
      · rename_i n hn hpub q rest1 heq
        simp only [Outcome.ok.injEq, Prod.mk.injEq] at h
        obtain ⟨h1, h2⟩ := h
        subst h1
        subst h2
        simp only [PublishQuery.decode] at heq
        split at heq
        · exact Except.noConfusion heq
        · rename_i hne
          simp only [Except.ok.injEq, Prod.mk.injEq] at heq
          obtain ⟨hq, hr⟩ := heq
          subst hq
          subst hr
          refine ⟨?_, ?_, rfl⟩
          · simp only [Message.payloadOk, Bool.and_eq_true]
            constructor
            · simpa using hne
            · simp only [List.all_eq_true]
              exact fun x hx => mem_takeWhile_pred _ _ x hx
          · simp only [Message.payloadNodes]
            exact (List.takeWhile_append_dropWhile _ _).symm
      · exact Outcome.noConfusion h
    · split at h
      · rename_i n hn hpub q rest1 heq
        simp only [Outcome.ok.injEq, Prod.mk.injEq] at h
        obtain ⟨h1, h2⟩ := h
        subst h1
        subst h2
        simp only [PublishQuery.decode] at heq
        split at heq
        · exact Except.noConfusion heq
        · rename_i hne
          simp only [Except.ok.injEq, Prod.mk.injEq] at heq
          obtain ⟨hq, hr⟩ := heq
          subst hq
          subst hr
          refine ⟨?_, ?_, rfl⟩
          · simp only [Message.payloadOk, Bool.and_eq_true]
            constructor
            · simpa using hne
            · simp only [List.all_eq_true]
              exact fun x hx => mem_takeWhile_pred _ _ x hx
          · simp only [Message.payloadNodes]
            exact (List.takeWhile_append_dropWhile _ _).symm
      · exact Outcome.noConfusion h
    · exact Outcome.noConfusion h
  · exact Outcome.noConfusion h

theorem decode_reply_ok (nodes : List XmlNode) (m : Message) (rest : List XmlNode)
    (h : Message.decode_reply nodes = .ok (m, rest)) :
    Message.payloadOk m = true ∧ nodes = Message.payloadNodes m ++ rest ∧
      Message.isQueryClass m = false := by
  simp only [Message.decode_reply] at h
  split at h
  · split at h
    · split at h
      · rename_i n hn hcase p rest1 heq
        simp only [Outcome.ok.injEq, Prod.mk.injEq] at h
        obtain ⟨h1, h2⟩ := h
        subst h1
        subst h2
        simp only [SuccessReply.decode] at heq
        split at heq
        · rename_i a c rest2
          simp only [Except.ok.injEq, Prod.mk.injEq] at heq
          obtain ⟨hq, hr⟩ := heq
          subst hq
          subst hr
          refine ⟨by simp [Message.payloadOk, XmlNode.isNamed], by
            simp [Message.payloadNodes], rfl⟩
        · exact Except.noConfusion heq
      · exact Outcome.noConfusion h
    · split at h
      · rename_i n hn hcase p rest1 heq
        simp only [Outcome.ok.injEq, Prod.mk.injEq] at h
        obtain ⟨h1, h2⟩ := h
        subst h1
        subst h2
        simp only [ListReply.decode] at heq
        split at heq
        · rename_i a c rest2
          simp only [Except.ok.injEq, Prod.mk.injEq] at heq
          obtain ⟨hq, hr⟩ := heq
          subst hq
          subst hr
          refine ⟨by simp [Message.payloadOk, XmlNode.isNamed], by
            simp [Message.payloadNodes], rfl⟩
        · exact Except.noConfusion heq
      · exact Outcome.noConfusion h
    · exact Outcome.noConfusion h
    · exact Outcome.noConfusion h
  · exact Outcome.noConfusion h

theorem typeStr_query {m : Message} (h : Message.isQueryClass m = true) :
    Message.typeStr m = "query" := by
  cases m <;> simp_all [Message.isQueryClass, Message.typeStr]

theorem typeStr_reply {m : Message} (h : Message.isQueryClass m = false) :
    Message.typeStr m = "reply" := by
  cases m <;> simp_all [Message.isQueryClass, Message.typeStr]

theorem decode_query_payload (m : Message) (hok : Message.payloadOk m = true)
    (hq : Message.isQueryClass m = true) :
    Message.decode_query (Message.payloadNodes m) = .ok (m, []) := by
  cases m with
  | ListQuery l =>
    obtain ⟨e⟩ := l
    simp only [Message.payloadOk] at hok
    cases e with
    | text s => simp [XmlNode.isNamed] at hok
    | elem n a c =>
      simp only [XmlNode.isNamed, decide_eq_true_eq] at hok
      subst hok
      simp [Message.decode_query, next_start_name, ListQuery.decode,
        Message.payloadNodes]
  | PublishQuery q =>
    obtain ⟨es⟩ := q
    simp only [Message.payloadOk, Bool.and_eq_true] at hok
    obtain ⟨hne, hall⟩ := hok
    cases es with
    | nil => simp at hne
    | cons e es1 =>
      have hallp : ∀ x ∈ e :: es1, isPublishOrWithdraw x = true :=
        List.all_eq_true.mp hall
      have he : isPublishOrWithdraw e = true := hallp e (by simp)
      obtain ⟨htk, hdk⟩ := takeWhile_all_eq isPublishOrWithdraw (e :: es1) hallp
      cases e with
      | text s => simp [isPublishOrWithdraw] at he
      | elem n a c =>
        simp only [isPublishOrWithdraw, Bool.or_eq_true, decide_eq_true_eq] at he
        rcases he with hn | hn
        all_goals subst hn
        all_goals
          simp only [Message.payloadNodes, Message.decode_query, next_start_name]
          simp [PublishQuery.decode, htk, hdk]
  | SuccessReply s => simp [Message.isQueryClass] at hq
  | ListReply l => simp [Message.isQueryClass] at hq

theorem decode_reply_payload (m : Message) (hok : Message.payloadOk m = true)
    (hq : Message.isQueryClass m = false) :
    Message.decode_reply (Message.payloadNodes m) = .ok (m, []) := by
  cases m with
  | SuccessReply s =>
    obtain ⟨e⟩ := s
    simp only [Message.payloadOk] at hok
    cases e with
    | text s2 => simp [XmlNode.isNamed] at hok
    | elem n a c =>
      simp only [XmlNode.isNamed, decide_eq_true_eq] at hok
      subst hok
      simp [Message.decode_reply, next_start_name, SuccessReply.decode,
        Message.payloadNodes]
  | ListReply l =>
    obtain ⟨e⟩ := l
    simp only [Message.payloadOk] at hok
    cases e with
    | text s2 => simp [XmlNode.isNamed] at hok
    | elem n a c =>
      simp only [XmlNode.isNamed, decide_eq_true_eq] at hok
      subst hok
      simp [Message.decode_reply, next_start_name, ListReply.decode,
        Message.payloadNodes]
  | PublishQuery q => simp [Message.isQueryClass] at hq
  | ListQuery l => simp [Message.isQueryClass] at hq

theorem take_msg_attrs_encode (m : Message) :
    Message.take_msg_attrs
      [("xmlns", NS), ("version", VERSION), ("type", Message.typeStr m)] =
      .ok (Message.typeStr m) := rfl

theorem decodeDoc_encodeDoc (m : Message) (hok : Message.payloadOk m = true) :
    Message.decodeDoc (Message.encodeDoc m) = .ok m := by
  cases hcls : Message.isQueryClass m with
  | true =>
    have hdq := decode_query_payload m hok hcls
    have hts := typeStr_query hcls
    simp only [Message.decodeDoc, Message.encodeDoc, take_msg_attrs_encode,
      hts, hdq, reduceIte, List.isEmpty_nil]
    rfl
  | false =>
    have hdr := decode_reply_payload m hok hcls
    have hts := typeStr_reply hcls
    simp only [Message.decodeDoc, Message.encodeDoc, take_msg_attrs_encode,
      hts, hdr, reduceIte, List.isEmpty_nil]
    rfl

theorem decodeDoc_ok_inv (doc : XmlNode) (m : Message)
    (h : Message.decodeDoc doc = .ok m) :
    Message.payloadOk m = true ∧ XmlNode.kids doc = Message.payloadNodes m ∧
      XmlNode.rootName doc = "msg" ∧
      Message.take_msg_attrs (XmlNode.rootAttrs doc) =
        .ok (Message.typeStr m) := by
  cases doc with
  | text s =>
    simp only [Message.decodeDoc] at h
    exact Outcome.noConfusion h
  | elem name attrs children =>
    simp only [Message.decodeDoc] at h
    split at h
    · rename_i hname
      split at h
      · exact Outcome.noConfusion h
      · rename_i t hta
        split at h
        · split at h
          · rename_i hq m1 rest1 heq
            split at h
            · rename_i hemp
              simp only [Outcome.ok.injEq] at h
              subst h
              obtain ⟨hok, hnodes, hcls⟩ := decode_query_ok _ _ _ heq
              have hr : rest1 = [] := by simpa using hemp
              subst hr
              rw [List.append_nil] at hnodes
              refine ⟨hok, by simpa [XmlNode.kids] using hnodes, hname, ?_⟩
              rw [XmlNode.rootAttrs, hta, typeStr_query hcls]
            · exact Outcome.noConfusion h
          · exact Outcome.noConfusion h
          · exact Outcome.noConfusion h
        · split at h
          · rename_i hq m1 rest1 heq
            split at h
            · rename_i hemp
              simp only [Outcome.ok.injEq] at h
              subst h
              obtain ⟨hok, hnodes, hcls⟩ := decode_reply_ok _ _ _ heq
              have hr : rest1 = [] := by simpa using hemp
              subst hr
              rw [List.append_nil] at hnodes
              refine ⟨hok, by simpa [XmlNode.kids] using hnodes, hname, ?_⟩
              rw [XmlNode.rootAttrs, hta, typeStr_reply hcls]
            · exact Outcome.noConfusion h
          · exact Outcome.noConfusion h
          · exact Outcome.noConfusion h
        · exact Outcome.noConfusion h
    · exact Outcome.noConfusion h

theorem wf_encodeDoc (m : Message) (h : Message.wfPayloads m = true) :
    wfNode (Message.encodeDoc m) = true := by
  simp only [Message.wfPayloads, Bool.and_eq_true] at h
  obtain ⟨hk, hna⟩ := h
  rw [Message.encodeDoc, wfNode]
  simp only [Bool.and_eq_true]
  refine ⟨⟨⟨by decide, ?_⟩, hk⟩, hna⟩
  cases m <;> simp only [Message.typeStr] <;> decide

theorem decodeDoc_encode_inv (m0 m : Message)
    (h : Message.decodeDoc (Message.encodeDoc m0) = .ok m) :
    Message.encodeDoc m = Message.encodeDoc m0 := by
  obtain ⟨-, hkids, -, hta⟩ := decodeDoc_ok_inv _ _ h
  have hkids2 : Message.payloadNodes m0 = Message.payloadNodes m := by
    simpa [Message.encodeDoc, XmlNode.kids] using hkids
  have hta2 : Message.take_msg_attrs
      [("xmlns", NS), ("version", VERSION), ("type", Message.typeStr m0)] =
      .ok (Message.typeStr m) := hta
  rw [take_msg_attrs_encode m0] at hta2
  simp only [Except.ok.injEq] at hta2
  rw [Message.encodeDoc, Message.encodeDoc, ← hta2, ← hkids2]

theorem decode_serializeDoc (t : XmlNode) (hwf : wfNode t = true)
    (he : t.isElemB = true) :
    Message.decode (serializeDoc t) = Message.decodeDoc t := by
  simp only [Message.decode, parseDoc_ser t hwf he]

theorem decode_encode_roundtrip (b : String) (m : Message)
    (h : Message.decode b = .ok m) :
    Message.decode (Message.encode_vec m) = .ok m ∧
    (∀ m0 : Message, Message.wfPayloads m0 = true → b = Message.encode_vec m0 →
      Message.encode_vec m = b) := by
  have hparse : ∃ doc, parseDoc b = some doc ∧ Message.decodeDoc doc = .ok m := by
    simp only [Message.decode] at h
    split at h
    · rename_i doc hd
      exact ⟨doc, hd, h⟩
    · exact Outcome.noConfusion h
  obtain ⟨doc, hpd, hdd⟩ := hparse
  obtain ⟨hwfd, held⟩ := parseDoc_sound b doc hpd
  obtain ⟨hok, hkids, -, -⟩ := decodeDoc_ok_inv doc m hdd
  have hwfp : Message.wfPayloads m = true := by
    cases doc with
    | text s => simp [XmlNode.isElemB] at held
    | elem n a c =>
      obtain ⟨-, -, hwk, hnad⟩ := wfNode_elem_parts hwfd
      have hc : c = Message.payloadNodes m := by simpa [XmlNode.kids] using hkids
      rw [hc] at hwk hnad
      simp [Message.wfPayloads, hwk, hnad]
  constructor
  · rw [Message.encode_vec, decode_serializeDoc _ (wf_encodeDoc m hwfp) rfl]
    exact decodeDoc_encodeDoc m hok
  · intro m0 hwf0 hb
    have hp0 : parseDoc b = some (Message.encodeDoc m0) := by
      rw [hb]
      exact parseDoc_ser _ (wf_encodeDoc m0 hwf0) rfl
    have hdoc : doc = Message.encodeDoc m0 := by
      rw [hpd] at hp0
      simpa using hp0
    rw [hdoc] at hdd
    have henc := decodeDoc_encode_inv m0 m hdd
    rw [Message.encode_vec, henc]
    exact hb.symm

/-! ### Claim theorems -/

theorem decodeDoc_invalid_version (attrs : List (String × String))
    (children : List XmlNode) (v : String) (a1 : List (String × String))
    (hv : take_req "version" (stripXmlns attrs) = .ok (v, a1))
    (hne : v ≠ "4") :
    Message.decodeDoc (.elem "msg" attrs children) = .err .InvalidVersion := by
  simp only [Message.decodeDoc, Message.take_msg_attrs, hv, VERSION, reduceIte]
  rw [if_neg hne]

/-- C2: for every document whose `msg` envelope carries a valid version and
`type="reply"` and whose first child start tag is `report_error`, decode
runs the unconditional `unimplemented!()` path: it panics (and hence never
returns a `Message`), a deliberate failure rather than a misparse. -/
theorem claim_c2 (attrs : List (String × String)) (children : List XmlNode)
    (a1 : List (String × String))
    (hv : take_req "version" (stripXmlns attrs) = .ok ("4", a1))
    (ht : take_req "type" a1 = .ok ("reply", []))
    (hn : next_start_name children = some "report_error") :
    Message.decodeDoc (.elem "msg" attrs children) = .panic "not implemented" := by
  simp only [Message.decodeDoc, Message.take_msg_attrs, hv, ht, hn,
    Message.decode_reply, exhausted, VERSION, reduceIte]

/-- C2 witness at a concrete report_error reply document. -/
theorem claim_c2_witness :
    take_req "version" (stripXmlns [("version", "4"), ("type", "reply")]) =
      .ok ("4", [("type", "reply")]) ∧
    take_req "type" [("type", "reply")] = .ok ("reply", []) ∧
    next_start_name [XmlNode.elem "report_error" [] []] = some "report_error" ∧
    Message.decodeDoc (.elem "msg" [("version", "4"), ("type", "reply")]
      [XmlNode.elem "report_error" [] []]) = .panic "not implemented" :=
  ⟨rfl, rfl, rfl, claim_c2 _ _ _ rfl rfl rfl⟩

/-- C4: a `msg` root whose version attribute value is not exactly `"4"`
fails with `InvalidVersion`, whatever the rest of the envelope holds. -/
theorem claim_c4 (attrs : List (String × String)) (children : List XmlNode)
    (v : String) (a1 : List (String × String))
    (hv : take_req "version" (stripXmlns attrs) = .ok (v, a1))
    (hne : v ≠ "4") :
    Message.decodeDoc (.elem "msg" attrs children) = .err .InvalidVersion :=
  decodeDoc_invalid_version attrs children v a1 hv hne

/-- C4 witness: `version="3"` on an otherwise valid document. -/
theorem claim_c4_witness :
    take_req "version" (stripXmlns [("version", "3"), ("type", "query")]) =
      .ok ("3", [("type", "query")]) ∧
    ("3" : String) ≠ "4" ∧
    Message.decodeDoc (.elem "msg" [("version", "3"), ("type", "query")]
      [XmlNode.elem "list" [] []]) = .err .InvalidVersion :=
  ⟨rfl, by decide, claim_c4 _ _ _ _ rfl (by decide)⟩

/-- C10: the version value check runs before the type attribute is read and
before the no-remaining-attributes check, so an invalid version wins even
when the type is missing or invalid or extra attributes are present. -/
theorem claim_c10 (v : String) (hne : v ≠ "4")
    (extra : List (String × String)) (children : List XmlNode) :
    Message.decodeDoc (.elem "msg" (("version", v) :: extra) children) =
      .err .InvalidVersion := by
  have hv : take_req "version" (stripXmlns (("version", v) :: extra)) =
      .ok (v, stripXmlns extra) := by
    simp [stripXmlns, take_req]
  exact decodeDoc_invalid_version _ _ _ _ hv hne

/-- C10 witness: invalid version with the type attribute missing and an
extra attribute present. -/
theorem claim_c10_witness :
    ("3" : String) ≠ "4" ∧
    Message.decodeDoc (.elem "msg" [("version", "3"), ("foo", "bar")] []) =
      .err .InvalidVersion :=
  ⟨by decide, claim_c10 "3" (by decide) [("foo", "bar")] []⟩

/-- C5 counterexample: with a valid version and `type="notify"` but an
extra attribute `foo="bar"`, decode fails with the unexpected-attribute
error, not `UnknownMessageType`, because the attribute-exhaustion check
runs before the type value is examined. -/
theorem claim_c5_counterexample :
    Message.decodeDoc (.elem "msg"
      [("version", "4"), ("type", "notify"), ("foo", "bar")] []) =
      .err (.XmlAttributesError (.UnexpectedAttribute "foo")) := rfl

/-- C5 (amended): with a valid version, a type value that is neither
`"query"` nor `"reply"`, and no attributes left beyond `version` and
`type`, decode fails with `UnknownMessageType`. -/
theorem claim_c5 (attrs : List (String × String)) (children : List XmlNode)
    (t : String) (a1 : List (String × String))
    (hv : take_req "version" (stripXmlns attrs) = .ok ("4", a1))
    (ht : take_req "type" a1 = .ok (t, []))
    (h1 : t ≠ "query") (h2 : t ≠ "reply") :
    Message.decodeDoc (.elem "msg" attrs children) = .err .UnknownMessageType := by
  simp only [Message.decodeDoc, Message.take_msg_attrs, hv, ht, exhausted,
    VERSION, reduceIte]

/-- C5 witness: `type="notify"` with exactly the required attributes. -/
theorem claim_c5_witness :
    take_req "version" (stripXmlns [("version", "4"), ("type", "notify")]) =
      .ok ("4", [("type", "notify")]) ∧
    take_req "type" [("type", "notify")] = .ok ("notify", []) ∧
    ("notify" : String) ≠ "query" ∧ ("notify" : String) ≠ "reply" ∧
    Message.decodeDoc (.elem "msg" [("version", "4"), ("type", "notify")] []) =
      .err .UnknownMessageType :=
  ⟨rfl, rfl, by decide, by decide,
    claim_c5 _ _ _ _ rfl rfl (by decide) (by decide)⟩

/-- C6 counterexample: a document missing the `type` attribute but carrying
`version="3"` fails with `InvalidVersion`, not with a missing-attribute
error naming `type`, because the version value is checked first. -/
theorem claim_c6_counterexample :
    Message.decodeDoc (.elem "msg" [("version", "3")] []) =
      .err .InvalidVersion := rfl

/-- C6 (amended): a `msg` root without a version attribute fails with
`MissingAttribute "version"`; with a valid version but no type attribute it
fails with `MissingAttribute "type"`; with a valid version and a type
attribute taken, any leftover attribute fails with `UnexpectedAttribute`
naming that key.  (When the version is invalid, `InvalidVersion` wins
instead.) -/
theorem claim_c6 :
    (∀ (attrs : List (String × String)) (children : List XmlNode),
      (∀ kv ∈ stripXmlns attrs, kv.1 ≠ "version") →
      Message.decodeDoc (.elem "msg" attrs children) =
        .err (.XmlAttributesError (.MissingAttribute "version"))) ∧
    (∀ (attrs : List (String × String)) (children : List XmlNode)
      (a1 : List (String × String)),
      take_req "version" (stripXmlns attrs) = .ok ("4", a1) →
      (∀ kv ∈ a1, kv.1 ≠ "type") →
      Message.decodeDoc (.elem "msg" attrs children) =
        .err (.XmlAttributesError (.MissingAttribute "type"))) ∧
    (∀ (attrs : List (String × String)) (children : List XmlNode)
      (a1 a2 : List (String × String)) (t k v : String),
      take_req "version" (stripXmlns attrs) = .ok ("4", a1) →
      take_req "type" a1 = .ok (t, (k, v) :: a2) →
      Message.decodeDoc (.elem "msg" attrs children) =
        .err (.XmlAttributesError (.UnexpectedAttribute k))) := by
  refine ⟨?_, ?_, ?_⟩
  · intro attrs children hmiss
    have hm := take_req_missing "version" (stripXmlns attrs) hmiss
    simp only [Message.decodeDoc, Message.take_msg_attrs, hm, reduceIte]
  · intro attrs children a1 hv hmiss
    have hm := take_req_missing "type" a1 hmiss
    simp only [Message.decodeDoc, Message.take_msg_attrs, hv, hm, VERSION,
      reduceIte]
  · intro attrs children a1 a2 t k v hv ht
    simp only [Message.decodeDoc, Message.take_msg_attrs, hv, ht, exhausted,
      VERSION, reduceIte]

/-- C6 witness: the three attribute failures at concrete documents. -/
theorem claim_c6_witness :
    Message.decodeDoc (.elem "msg" [("type", "query")] []) =
      .err (.XmlAttributesError (.MissingAttribute "version")) ∧
    Message.decodeDoc (.elem "msg" [("version", "4")] []) =
      .err (.XmlAttributesError (.MissingAttribute "type")) ∧
    Message.decodeDoc (.elem "msg"
        [("version", "4"), ("type", "query"), ("foo", "bar")] []) =
      .err (.XmlAttributesError (.UnexpectedAttribute "foo")) :=
  ⟨claim_c6.1 [("type", "query")] [] (by decide),
   claim_c6.2.1 [("version", "4")] [] [] rfl (by decide),
   claim_c6.2.2 [("version", "4"), ("type", "query"), ("foo", "bar")] []
     [("type", "query"), ("foo", "bar")] [] "query" "foo" "bar" rfl rfl⟩

/-- C8 counterexample: the spec's §7 taxonomy names a distinct
`PayloadError` variant, but the source `MessageError` enum declares no such
variant. -/
theorem claim_c8_counterexample :
    (specSection7Variants.contains "PayloadError") = true ∧
    (MessageError.variantNames.contains "PayloadError") = false := by decide

/-- C8 (amended): every failure of decode carries one of the seven variant
names the source `MessageError` enum declares; payload-originated failures
are funnelled through the shared wrapping variants (`XmlReadError`,
`XmlAttributesError`, `UriError`) rather than a distinct `PayloadError`. -/
theorem claim_c8 (s : String) (e : MessageError)
    (h : Message.decode s = .err e) :
    e.ctorName ∈ MessageError.variantNames := by
  cases e <;> simp [MessageError.ctorName, MessageError.variantNames]

/-- C8 witness: a concrete failing decode and its variant name. -/
theorem claim_c8_witness :
    Message.decode "" = .err (.XmlReadError .ParseError) ∧
    (MessageError.XmlReadError XmlReaderErr.ParseError).ctorName ∈
      MessageError.variantNames :=
  ⟨rfl, claim_c8 "" (.XmlReadError .ParseError) rfl⟩

/-- C9: encoding is total: for every in-memory `Message`, `encode_vec`
produces the serialized document — a byte string that always starts with
the `msg` root tag; there is no error result and no failure path. -/
theorem claim_c9 (m : Message) :
    Message.encode_vec m = serializeDoc (Message.encodeDoc m) ∧
    (Message.encode_vec m).toList.take 4 = ['<', 'm', 's', 'g'] := by
  refine ⟨rfl, ?_⟩
  cases hk : Message.payloadNodes m with
  | nil =>
    simp [Message.encode_vec, serializeDoc, Message.encodeDoc, serializeNode,
      toList_mk, hk, List.take]
  | cons t ts =>
    simp [Message.encode_vec, serializeDoc, Message.encodeDoc, serializeNode,
      toList_mk, hk, List.take]

/-- C7 counterexample: encoding a publish query holding two elements writes
two payload element trees inside `msg`, not exactly one. -/
theorem claim_c7_counterexample :
    XmlNode.kidCount (Message.encodeDoc (.PublishQuery
      ⟨[.elem "publish" [] [], .elem "withdraw" [] []]⟩)) = 2 ∧
    Message.encode_vec (.PublishQuery
      ⟨[.elem "publish" [] [], .elem "withdraw" [] []]⟩) =
      "<msg xmlns=\"http://www.hactrn.net/uris/rpki/publication-spec/\" version=\"4\" type=\"query\"><publish/><withdraw/></msg>" :=
  ⟨rfl, rfl⟩

/-- C7 (amended): `encode_vec` always serializes a single root `msg`
element with the attributes in the fixed order `xmlns`, `version`, `type`
and the exact constant values, `type` being `"query"` for the query class
and `"reply"` for the reply class; the payload encoder writes its element
trees inside `msg` — exactly one for ListQuery/SuccessReply/ListReply, one
per publish/withdraw element for PublishQuery. -/
theorem claim_c7 (m : Message) :
    XmlNode.rootName (Message.encodeDoc m) = "msg" ∧
    XmlNode.rootAttrs (Message.encodeDoc m) =
      [("xmlns", NS), ("version", VERSION), ("type", Message.typeStr m)] ∧
    XmlNode.kids (Message.encodeDoc m) = Message.payloadNodes m ∧
    (Message.isQueryClass m = true → Message.typeStr m = "query") ∧
    (Message.isQueryClass m = false → Message.typeStr m = "reply") ∧
    (Message.isPublishQueryB m = false → (Message.payloadNodes m).length = 1) ∧
    Message.encode_vec m = serializeDoc (Message.encodeDoc m) := by
  refine ⟨rfl, rfl, rfl, typeStr_query, typeStr_reply, ?_, rfl⟩
  intro h
  cases m with
  | PublishQuery q => simp [Message.isPublishQueryB] at h
  | ListQuery l => simp [Message.payloadNodes]
  | SuccessReply s => simp [Message.payloadNodes]
  | ListReply l => simp [Message.payloadNodes]

/-- C7 witness at a concrete list query. -/
theorem claim_c7_witness :
    Message.isQueryClass (Message.ListQuery ⟨.elem "list" [] []⟩) = true ∧
    Message.typeStr (Message.ListQuery ⟨.elem "list" [] []⟩) = "query" ∧
    Message.isPublishQueryB (Message.ListQuery ⟨.elem "list" [] []⟩) = false ∧
    (Message.payloadNodes (Message.ListQuery ⟨.elem "list" [] []⟩)).length = 1 :=
  ⟨rfl, (claim_c7 (Message.ListQuery ⟨.elem "list" [] []⟩)).2.2.2.1 rfl,
   rfl, (claim_c7 (Message.ListQuery ⟨.elem "list" [] []⟩)).2.2.2.2.2.1 rfl⟩

theorem decode_query_variant (nodes : List XmlNode) (m : Message)
    (rest : List XmlNode) (h : Message.decode_query nodes = .ok (m, rest)) :
    (next_start_name nodes = some "list" → Message.isListQueryB m = true) ∧
    (next_start_name nodes = some "publish" ∨
      next_start_name nodes = some "withdraw" →
      Message.isPublishQueryB m = true) := by
  obtain ⟨hok, hnodes, hcls⟩ := decode_query_ok nodes m rest h
  subst hnodes
  constructor
  · intro hn
    cases m with
    | ListQuery l => rfl
    | PublishQuery q =>
      obtain ⟨es⟩ := q
      simp only [Message.payloadOk, Bool.and_eq_true] at hok
      obtain ⟨hne, hall⟩ := hok
      cases es with
      | nil => simp at hne
      | cons e es1 =>
        have he := List.all_eq_true.mp hall e (by simp)
        cases e with
        | text s => simp [isPublishOrWithdraw] at he
        | elem n2 a c =>
          simp only [Message.payloadNodes, List.cons_append, next_start_name,
            Option.some.injEq] at hn
          subst hn
          simp [isPublishOrWithdraw] at he
    | SuccessReply s => simp [Message.isQueryClass] at hcls
    | ListReply l => simp [Message.isQueryClass] at hcls
  · intro hn
    cases m with
    | PublishQuery q => rfl
    | ListQuery l =>
      obtain ⟨e⟩ := l
      simp only [Message.payloadOk] at hok
      cases e with
      | text s => simp [XmlNode.isNamed] at hok
      | elem n2 a c =>
        simp only [XmlNode.isNamed, decide_eq_true_eq] at hok
        subst hok
        simp only [Message.payloadNodes, List.cons_append, next_start_name,
          Option.some.injEq] at hn
        rcases hn with hn | hn <;> exact absurd hn (by decide)
    | SuccessReply s => simp [Message.isQueryClass] at hcls
    | ListReply l => simp [Message.isQueryClass] at hcls

theorem decode_reply_variant (nodes : List XmlNode) (m : Message)
    (rest : List XmlNode) (h : Message.decode_reply nodes = .ok (m, rest)) :
    (next_start_name nodes = some "success" →
      Message.isSuccessReplyB m = true) ∧
    (next_start_name nodes = some "list" → Message.isListReplyB m = true) := by
  obtain ⟨hok, hnodes, hcls⟩ := decode_reply_ok nodes m rest h
  subst hnodes
  constructor
  · intro hn
    cases m with
    | SuccessReply s => rfl
    | ListReply l =>
      obtain ⟨e⟩ := l
      simp only [Message.payloadOk] at hok
      cases e with
      | text s => simp [XmlNode.isNamed] at hok
      | elem n2 a c =>
        simp only [XmlNode.isNamed, decide_eq_true_eq] at hok
        subst hok
        simp only [Message.payloadNodes, List.cons_append, next_start_name,
          Option.some.injEq] at hn
        exact absurd hn (by decide)
    | PublishQuery q => simp [Message.isQueryClass] at hcls
    | ListQuery l => simp [Message.isQueryClass] at hcls
  · intro hn
    cases m with
    | ListReply l => rfl
    | SuccessReply s =>
      obtain ⟨e⟩ := s
      simp only [Message.payloadOk] at hok
      cases e with
      | text s2 => simp [XmlNode.isNamed] at hok
      | elem n2 a c =>
        simp only [XmlNode.isNamed, decide_eq_true_eq] at hok
        subst hok
        simp only [Message.payloadNodes, List.cons_append, next_start_name,
          Option.some.injEq] at hn
        exact absurd hn (by decide)
    | PublishQuery q => simp [Message.isQueryClass] at hcls
    | ListQuery l => simp [Message.isQueryClass] at hcls

/-- C3 counterexample: a query whose first child start tag is `list` but
which carries a trailing sibling does not return a `Message::ListQuery` —
decode fails because the enclosing element is not fully consumed. -/
theorem claim_c3_counterexample :
    Message.decodeDoc (.elem "msg" [("version", "4"), ("type", "query")]
      [.elem "list" [] [], .elem "bogus" [] []]) =
      .err (.XmlReadError .UnexpectedContent) := rfl

/-- C3 (amended): under a validated envelope, dispatch on the first child
start tag: for `type="query"`, a first tag `list` yields the ListQuery
variant whenever decode succeeds, `publish`/`withdraw` yield the
PublishQuery variant whenever decode succeeds, any other tag `n` fails with
`UnexpectedStart n`, and no start tag fails with `ExpectedStart`;
symmetrically for `type="reply"` with `success`/`list` and the
`ExpectedStart` message naming `success, list, or report_error`. -/
theorem claim_c3 (attrs : List (String × String)) (children : List XmlNode)
    (t : String) (a1 : List (String × String))
    (hv : take_req "version" (stripXmlns attrs) = .ok ("4", a1))
    (ht : take_req "type" a1 = .ok (t, [])) :
    (t = "query" →
      ((next_start_name children = some "list" → ∀ m,
         Message.decodeDoc (.elem "msg" attrs children) = .ok m →
         Message.isListQueryB m = true) ∧
       ((next_start_name children = some "publish" ∨
         next_start_name children = some "withdraw") → ∀ m,
         Message.decodeDoc (.elem "msg" attrs children) = .ok m →
         Message.isPublishQueryB m = true) ∧
       (∀ n, next_start_name children = some n → n ≠ "list" → n ≠ "publish" →
         n ≠ "withdraw" →
         Message.decodeDoc (.elem "msg" attrs children) =
           .err (.UnexpectedStart n)) ∧
       (next_start_name children = none →
         Message.decodeDoc (.elem "msg" attrs children) =
           .err (.ExpectedStart "list, publish, or withdraw")))) ∧
    (t = "reply" →
      ((next_start_name children = some "success" → ∀ m,
         Message.decodeDoc (.elem "msg" attrs children) = .ok m →
         Message.isSuccessReplyB m = true) ∧
       (next_start_name children = some "list" → ∀ m,
         Message.decodeDoc (.elem "msg" attrs children) = .ok m →
         Message.isListReplyB m = true) ∧
       (∀ n, next_start_name children = some n → n ≠ "success" → n ≠ "list" →
         n ≠ "report_error" →
         Message.decodeDoc (.elem "msg" attrs children) =
           .err (.UnexpectedStart n)) ∧
       (next_start_name children = none →
         Message.decodeDoc (.elem "msg" attrs children) =
           .err (.ExpectedStart "success, list, or report_error")))) := by
  constructor
  · intro hteq
    subst hteq
    refine ⟨?_, ?_, ?_, ?_⟩
    · intro hn m hm
      simp only [Message.decodeDoc, Message.take_msg_attrs, hv, ht, exhausted,
        VERSION, reduceIte] at hm
      split at hm
      · rename_i m1 rest1 heq
        split at hm
        · simp only [Outcome.ok.injEq] at hm
          subst hm
          exact (decode_query_variant _ _ _ heq).1 hn
        · exact Outcome.noConfusion hm
      · exact Outcome.noConfusion hm
      · exact Outcome.noConfusion hm
    · intro hn m hm
      simp only [Message.decodeDoc, Message.take_msg_attrs, hv, ht, exhausted,
        VERSION, reduceIte] at hm
      split at hm
      · rename_i m1 rest1 heq
        split at hm
        · simp only [Outcome.ok.injEq] at hm
          subst hm
          exact (decode_query_variant _ _ _ heq).2 hn
        · exact Outcome.noConfusion hm
      · exact Outcome.noConfusion hm
      · exact Outcome.noConfusion hm
    · intro n hn h1 h2 h3
      simp only [Message.decodeDoc, Message.take_msg_attrs, hv, ht, exhausted,
        VERSION, reduceIte, Message.decode_query, hn]
    · intro hn
      simp only [Message.decodeDoc, Message.take_msg_attrs, hv, ht, exhausted,
        VERSION, reduceIte, Message.decode_query, hn]
  · intro hteq
    subst hteq
    refine ⟨?_, ?_, ?_, ?_⟩
    · intro hn m hm
      simp only [Message.decodeDoc, Message.take_msg_attrs, hv, ht, exhausted,
        VERSION, reduceIte] at hm
      split at hm
      · rename_i m1 rest1 heq
        split at hm
        · simp only [Outcome.ok.injEq] at hm
          subst hm
          exact (decode_reply_variant _ _ _ heq).1 hn
        · exact Outcome.noConfusion hm
      · exact Outcome.noConfusion hm
      · exact Outcome.noConfusion hm
    · intro hn m hm
      simp only [Message.decodeDoc, Message.take_msg_attrs, hv, ht, exhausted,
        VERSION, reduceIte] at hm
      split at hm
      · rename_i m1 rest1 heq
        split at hm
        · simp only [Outcome.ok.injEq] at hm
          subst hm
          exact (decode_reply_variant _ _ _ heq).2 hn
        · exact Outcome.noConfusion hm
      · exact Outcome.noConfusion hm
      · exact Outcome.noConfusion hm
    · intro n hn h1 h2 h3
      simp only [Message.decodeDoc, Message.take_msg_attrs, hv, ht, exhausted,
        VERSION, reduceIte, Message.decode_reply, hn]
    · intro hn
      simp only [Message.decodeDoc, Message.take_msg_attrs, hv, ht, exhausted,
        VERSION, reduceIte, Message.decode_reply, hn]

/-- C3 witness: concrete dispatches for each message class. -/
theorem claim_c3_witness :
    Message.isListQueryB (Message.ListQuery ⟨.elem "list" [] []⟩) = true ∧
    Message.decodeDoc (.elem "msg" [("version", "4"), ("type", "query")]
      [.elem "delete" [] []]) = .err (.UnexpectedStart "delete") ∧
    Message.decodeDoc (.elem "msg" [("version", "4"), ("type", "query")] []) =
      .err (.ExpectedStart "list, publish, or withdraw") ∧
    Message.isSuccessReplyB (Message.SuccessReply ⟨.elem "success" [] []⟩) = true :=
  ⟨((claim_c3 [("version", "4"), ("type", "query")] [.elem "list" [] []]
      "query" [("type", "query")] rfl rfl).1 rfl).1 rfl
      (Message.ListQuery ⟨.elem "list" [] []⟩) rfl,
   ((claim_c3 [("version", "4"), ("type", "query")] [.elem "delete" [] []]
      "query" [("type", "query")] rfl rfl).1 rfl).2.2.1 "delete" rfl
      (by decide) (by decide) (by decide),
   ((claim_c3 [("version", "4"), ("type", "query")] []
      "query" [("type", "query")] rfl rfl).1 rfl).2.2.2 rfl,
   ((claim_c3 [("version", "4"), ("type", "reply")] [.elem "success" [] []]
      "reply" [("type", "reply")] rfl rfl).2 rfl).1 rfl
      (Message.SuccessReply ⟨.elem "success" [] []⟩) rfl⟩

/-- C1: round-trip identity.  For every `Message` obtained from a
successful decode, decoding its encoding succeeds and returns an equal
`Message`; and for every byte string produced by a conformant encoder —
`encode_vec` of a message whose payload subtrees are well-formed — decoding
then re-encoding reproduces the bytes exactly, attribute order and absence
of extraneous whitespace included. -/
theorem claim_c1 (b : String) (m : Message) (h : Message.decode b = .ok m) :
    Message.decode (Message.encode_vec m) = .ok m ∧
    (∀ m0 : Message, Message.wfPayloads m0 = true → b = Message.encode_vec m0 →
      Message.encode_vec m = b) :=
  decode_encode_roundtrip b m h

/-- C1 witness: the concrete list query of the spec's §8 scenario. -/
theorem claim_c1_witness :
    Message.decode "<msg xmlns=\"http://www.hactrn.net/uris/rpki/publication-spec/\" version=\"4\" type=\"query\"><list/></msg>" =
      .ok (Message.ListQuery ⟨.elem "list" [] []⟩) ∧
    Message.decode (Message.encode_vec (Message.ListQuery ⟨.elem "list" [] []⟩)) =
      .ok (Message.ListQuery ⟨.elem "list" [] []⟩) ∧
    Message.wfPayloads (Message.ListQuery ⟨.elem "list" [] []⟩) = true ∧
    Message.encode_vec (Message.ListQuery ⟨.elem "list" [] []⟩) =
      "<msg xmlns=\"http://www.hactrn.net/uris/rpki/publication-spec/\" version=\"4\" type=\"query\"><list/></msg>" := by
  have hdec : Message.decode "<msg xmlns=\"http://www.hactrn.net/uris/rpki/publication-spec/\" version=\"4\" type=\"query\"><list/></msg>" =
      .ok (Message.ListQuery ⟨.elem "list" [] []⟩) := rfl
  exact ⟨hdec, (claim_c1 _ _ hdec).1, rfl, (claim_c1 _ _ hdec).2
    (Message.ListQuery ⟨.elem "list" [] []⟩) rfl rfl⟩
